import Mathlib

/-!
Shallow embedding of `src/main.py` (font-reel): a pipeline that renders a
fixed text with a sequence of fonts into a frame stream.

The external rasterizer (PIL's `ImageFont.truetype`, `draw.textsize`,
`ImageFont.load_default`) is modelled as an oracle `Raster`:
`load` says whether `ImageFont.truetype(font_path, size)` succeeds,
`sizeAt` gives `draw.textsize(text, font=truetype(font_path, size))`, and
`fallbackSize` gives `draw.textsize(text, font=ImageFont.load_default())`.
Measured extents are natural numbers; point sizes are integers because the
binary-search bounds are manipulated with subtraction.
-/

namespace FontReel

/-- Configuration constant `TEXT` from `src/main.py`. -/
def TEXT : String := "YOUR TEXT HERE"

/-- Configuration constant `OUTPUT` from `src/main.py`. -/
def OUTPUT : String := "font_reel_1080x1920.mp4"

/-- Configuration constant `WIDTH` from `src/main.py`. -/
def WIDTH : Nat := 1080

/-- Configuration constant `HEIGHT` from `src/main.py`. -/
def HEIGHT : Nat := 1920

/-- Configuration constant `FPS` from `src/main.py`. -/
def FPS : Nat := 30

/-- Configuration constant `SECONDS_PER_FONT = 2.0` from `src/main.py`.
The float value 2.0 is exactly representable, so a rational models it
exactly. -/
def SECONDS_PER_FONT : ℚ := 2

/-- Oracle for the PIL rasterizer. -/
structure Raster where
  /-- whether `ImageFont.truetype(font_path, size)` succeeds (no `OSError`). -/
  load : String → Int → Bool
  /-- `draw.textsize(text, font=ImageFont.truetype(font_path, size))`. -/
  sizeAt : String → String → Int → Nat × Nat
  /-- `draw.textsize(text, font=ImageFont.load_default())`. -/
  fallbackSize : String → Nat × Nat

/-- The font actually drawn with: a loaded truetype font at a chosen point
size, or PIL's default font (`ImageFont.load_default()`). -/
inductive FontChoice
  | truetype (size : Int)
  | fallback
deriving DecidableEq

/-- `draw.textsize(text, font=font)` for either kind of font. -/
def textsizeOf (r : Raster) (text font_path : String) : FontChoice → Nat × Nat
  | .truetype s => r.sizeAt text font_path s
  | .fallback => r.fallbackSize text

/-- The `while lo <= hi` loop of `fit_text_on_image` (src/main.py lines
90-102).  `(lo + hi) / 2` on `Int` here is floor division (the divisor is
positive), matching Python's `//`.  A load failure returns `none`
immediately (the Python `return None` inside the loop); `none` elsewhere
means `best_font` was never set. -/
def fitLoop (r : Raster) (text font_path : String) (max_width max_height : Nat)
    (lo hi : Int) (best : Option Int) : Option Int :=
  if lo ≤ hi then
    let mid := (lo + hi) / 2
    if r.load font_path mid then
      let wh := r.sizeAt text font_path mid
      if wh.1 ≤ max_width ∧ wh.2 ≤ max_height then
        fitLoop r text font_path max_width max_height (mid + 1) hi (some mid)
      else
        fitLoop r text font_path max_width max_height lo (mid - 1) best
    else none
  else best
termination_by (hi + 1 - lo).toNat
decreasing_by
  · simp only [mid] at *; omega
  · simp only [mid] at *; omega

/-- `fit_text_on_image` (src/main.py lines 82-103): binary search for a
font size in `[6, 320]`; `some s` is a `FreeTypeFont` at size `s`, `none`
is Python's `None`. -/
def fit_text_on_image (r : Raster) (text font_path : String)
    (max_width max_height : Nat) : Option Int :=
  fitLoop r text font_path max_width max_height 6 320 none

/-- Instrumented copy of `fitLoop` that also records every size `mid` at
which the loop attempts `ImageFont.truetype(font_path, mid)`, in order. -/
def fitLoopTrace (r : Raster) (text font_path : String) (max_width max_height : Nat)
    (lo hi : Int) (best : Option Int) : List Int × Option Int :=
  if lo ≤ hi then
    let mid := (lo + hi) / 2
    if r.load font_path mid then
      let wh := r.sizeAt text font_path mid
      if wh.1 ≤ max_width ∧ wh.2 ≤ max_height then
        let rest := fitLoopTrace r text font_path max_width max_height (mid + 1) hi (some mid)
        (mid :: rest.1, rest.2)
      else
        let rest := fitLoopTrace r text font_path max_width max_height lo (mid - 1) best
        (mid :: rest.1, rest.2)
    else ([mid], none)
  else ([], best)
termination_by (hi + 1 - lo).toNat
decreasing_by
  · simp only [mid] at *; omega
  · simp only [mid] at *; omega

/-- The sizes probed by `fit_text_on_image` (the sizes at which it calls
`ImageFont.truetype`), in order. -/
def fit_probes (r : Raster) (text font_path : String)
    (max_width max_height : Nat) : List Int :=
  (fitLoopTrace r text font_path max_width max_height 6 320 none).1

/-- `int(img_w * 0.9)` from `create_frame` (src/main.py line 111): the
float product is exact enough that truncation agrees with `⌊9w/10⌋` for
every realistic width, which on `Nat` is `9 * w / 10`. -/
def fitBoxW (img_w : Nat) : Nat := img_w * 9 / 10

/-- `int(img_h * 0.5)` from `create_frame` (src/main.py line 112); `0.5`
is exact in floating point, so this is `⌊h/2⌋`. -/
def fitBoxH (img_h : Nat) : Nat := img_h * 5 / 10

/-- The observable content of the PIL image built by `create_frame`:
its dimensions, background color, the font actually used, the measured
text extents, the draw origin and the text fill color. -/
structure Frame where
  width : Nat
  height : Nat
  background : Nat × Nat × Nat
  fontPath : String
  font : FontChoice
  textWH : Nat × Nat
  origin : Int × Int
  fill : Nat × Nat × Nat
deriving DecidableEq

/-- `create_frame` (src/main.py lines 105-126): fit the font, fall back to
`ImageFont.load_default()` on `None`, re-measure with the final font, and
draw centered with integer floor division (`//` in Python, `/` on `Int`
here: the divisor 2 is positive, so they agree). -/
def create_frame (r : Raster) (img_w img_h : Nat) (text font_path : String) : Frame :=
  let max_w := fitBoxW img_w
  let max_h := fitBoxH img_h
  let font := match fit_text_on_image r text font_path max_w max_h with
    | some s => FontChoice.truetype s
    | none => FontChoice.fallback
  let wh := textsizeOf r text font_path font
  let x : Int := ((img_w : Int) - wh.1) / 2
  let y : Int := ((img_h : Int) - wh.2) / 2
  { width := img_w, height := img_h, background := (0, 0, 0),
    fontPath := font_path, font := font, textWH := wh,
    origin := (x, y), fill := (255, 255, 255) }

/-- `frame_count_per_font = max(1, int(round(SECONDS_PER_FONT * FPS)))`
(src/main.py line 162).  `2.0 * 30 = 60.0` is exact, so Python's
half-to-even `round` and Mathlib's `round` agree here. -/
def frame_count_per_font : Int := max 1 (round (SECONDS_PER_FONT * (FPS : ℚ)))

/-- The frame-rendering loop of `main` (src/main.py lines 161-173): for
each `(family, font_path)` in order, append `frame_count_per_font` copies
of the frame created for that font. -/
def render_frames (r : Raster) (font_files : List (String × String)) : List Frame :=
  font_files.flatMap fun fp =>
    List.replicate frame_count_per_font.toNat (create_frame r WIDTH HEIGHT TEXT fp.2)

/-- Observable outcome of one run of `main` (src/main.py lines 128-186),
given the resolved `font_files` list: which frames were rendered, whether
an exception escaped `main`, the process exit status, and whether the
output video file was written. -/
structure RunOutcome where
  frames : List Frame
  raised : Bool
  exitCode : Nat
  outputWritten : Bool
deriving DecidableEq

/-- `main` after font resolution (src/main.py lines 157-186).  With no
fonts it prints "No fonts available. Aborting." and `return`s — a normal
return from `main`, so the process exits with status 0 and no exception;
otherwise it renders all frames and writes `OUTPUT` (the encoder is an
external collaborator assumed to succeed). -/
def mainRun (r : Raster) (font_files : List (String × String)) : RunOutcome :=
  if font_files.isEmpty then
    { frames := [], raised := false, exitCode := 0, outputWritten := false }
  else
    { frames := render_frames r font_files, raised := false, exitCode := 0,
      outputWritten := true }

/-- The text fits inside the box at size `s` (the test on line 98). -/
def fitsAt (r : Raster) (text font_path : String) (max_width max_height : Nat)
    (s : Int) : Prop :=
  (r.sizeAt text font_path s).1 ≤ max_width ∧ (r.sizeAt text font_path s).2 ≤ max_height

instance (r : Raster) (text font_path : String) (mw mh : Nat) (s : Int) :
    Decidable (fitsAt r text font_path mw mh s) := by
  unfold fitsAt; infer_instance

/-! ### Lemmas about the binary-search loop -/

/-- The instrumented loop computes the same result as the original loop. -/
theorem fitLoopTrace_snd (r : Raster) (t fp : String) (mw mh : Nat)
    (lo hi : Int) (best : Option Int) :
    (fitLoopTrace r t fp mw mh lo hi best).2 = fitLoop r t fp mw mh lo hi best := by
  induction lo, hi, best using fitLoop.induct r t fp mw mh with
  | case1 lo hi best hle mid hload wh hfits ih =>
    simp only [mid, wh] at hload hfits ih
    rw [fitLoop, fitLoopTrace]
    simp only [hle, hload, hfits, if_true, and_self]
    simpa using ih
  | case2 lo hi best hle mid hload wh hfits ih =>
    simp only [mid, wh] at hload hfits ih
    rw [fitLoop, fitLoopTrace]
    simp only [hle, hload, hfits, if_true, if_false, iff_true]
    simpa [hfits] using ih
  | case3 lo hi best hle mid hload =>
    simp only [mid] at hload
    rw [fitLoop, fitLoopTrace]
    simp [hle, hload]
  | case4 lo hi best hle =>
    rw [fitLoop, fitLoopTrace]
    simp [hle]

/-- The loop's result depends only on the behaviour of the rasterizer on
the given text and font path. -/
theorem fitLoop_congr (r₁ r₂ : Raster) (t fp : String) (mw mh : Nat)
    (hl : ∀ s : Int, r₁.load fp s = r₂.load fp s)
    (hs : ∀ s : Int, r₁.sizeAt t fp s = r₂.sizeAt t fp s) :
    ∀ lo hi best, fitLoop r₁ t fp mw mh lo hi best = fitLoop r₂ t fp mw mh lo hi best := by
  intro lo hi best
  induction lo, hi, best using fitLoop.induct r₁ t fp mw mh with
  | case1 lo hi best hle mid hload wh hfits ih =>
    simp only [mid, wh] at hload hfits ih
    rw [fitLoop, fitLoop]
    simp only [hl, hs] at hload hfits ⊢
    simp [hle, hload, hfits]
    simpa using ih
  | case2 lo hi best hle mid hload wh hfits ih =>
    simp only [mid, wh] at hload hfits ih
    rw [fitLoop, fitLoop]
    simp only [hl, hs] at hload hfits ⊢
    simp [hle, hload, hfits]
    simpa using ih
  | case3 lo hi best hle mid hload =>
    simp only [mid] at hload
    rw [fitLoop, fitLoop]
    simp only [hl, hs] at hload ⊢
    simp [hle, hload]
  | case4 lo hi best hle =>
    rw [fitLoop, fitLoop]
    simp [hle]

/-- If no size in `[6, 320]` fits, the loop never records a best font. -/
theorem fitLoop_none_of_nofit (r : Raster) (t fp : String) (mw mh : Nat)
    (hnofit : ∀ s : Int, 6 ≤ s → s ≤ 320 → ¬ fitsAt r t fp mw mh s) :
    ∀ lo hi best, 6 ≤ lo → hi ≤ 320 → best = none →
      fitLoop r t fp mw mh lo hi best = none := by
  intro lo hi best
  induction lo, hi, best using fitLoop.induct r t fp mw mh with
  | case1 lo hi best hle mid hload wh hfits ih =>
    intro h6 h320 _
    exfalso
    simp only [mid, wh] at hfits
    exact hnofit ((lo + hi) / 2) (by omega) (by omega) hfits
  | case2 lo hi best hle mid hload wh hfits ih =>
    intro h6 h320 hbest
    simp only [mid, wh] at hload hfits ih
    rw [fitLoop]
    simp [hle, hload, hfits]
    exact ih h6 (by omega) hbest
  | case3 lo hi best hle mid hload =>
    intro _ _ _
    simp only [mid] at hload
    rw [fitLoop]
    simp [hle, hload]
  | case4 lo hi best hle =>
    intro _ _ hbest
    rw [fitLoop]
    simp [hle, hbest]

/-- Every probed size and any recorded best size stays in `[6, 320]`,
provided the initial state does. -/
theorem fitLoopTrace_bounds (r : Raster) (t fp : String) (mw mh : Nat) :
    ∀ lo hi best, 6 ≤ lo → hi ≤ 320 →
      (∀ b : Int, best = some b → 6 ≤ b ∧ b ≤ 320) →
      (∀ s ∈ (fitLoopTrace r t fp mw mh lo hi best).1, 6 ≤ s ∧ s ≤ 320) ∧
      (∀ b : Int, (fitLoopTrace r t fp mw mh lo hi best).2 = some b →
        6 ≤ b ∧ b ≤ 320) := by
  intro lo hi best
  induction lo, hi, best using fitLoop.induct r t fp mw mh with
  | case1 lo hi best hle mid hload wh hfits ih =>
    intro h6 h320 _
    simp only [mid, wh] at hload hfits ih
    rw [fitLoopTrace]
    simp only [hle, hload, hfits, if_true, and_self, ite_true]
    have ihx := ih (by omega) h320 (by intro b hb; cases hb; omega)
    constructor
    · intro s hsmem
      rcases List.mem_cons.mp hsmem with h | h
      · subst h; omega
      · exact ihx.1 s h
    · exact ihx.2
  | case2 lo hi best hle mid hload wh hfits ih =>
    intro h6 h320 hbest
    simp only [mid, wh] at hload hfits ih
    rw [fitLoopTrace]
    simp only [hle, hload, hfits, if_true, if_false, ite_true, ite_false]
    have ihx := ih h6 (by omega) hbest
    constructor
    · intro s hsmem
      rcases List.mem_cons.mp hsmem with h | h
      · subst h; omega
      · exact ihx.1 s h
    · exact ihx.2
  | case3 lo hi best hle mid hload =>
    intro h6 h320 _
    simp only [mid] at hload
    rw [fitLoopTrace]
    simp only [hle, hload, ite_true, ite_false, Bool.false_eq_true, if_false]
    constructor
    · intro s hsmem
      rcases List.mem_cons.mp hsmem with h | h
      · subst h; omega
      · exact absurd h (List.not_mem_nil s)
    · intro b hb; cases hb
  | case4 lo hi best hle =>
    intro _ _ hbest
    rw [fitLoopTrace]
    simp only [hle, ite_false, if_false]
    constructor
    · intro s hsmem; exact absurd hsmem (List.not_mem_nil s)
    · exact hbest

/-- If a probed size fails to load, it is the last probed size and the
loop's result is `none`: the fit is aborted on the spot. -/
theorem fitLoopTrace_load_fail (r : Raster) (t fp : String) (mw mh : Nat) :
    ∀ lo hi best (s : Int), s ∈ (fitLoopTrace r t fp mw mh lo hi best).1 →
      r.load fp s = false →
      (fitLoopTrace r t fp mw mh lo hi best).2 = none ∧
      ((fitLoopTrace r t fp mw mh lo hi best).1).getLast? = some s := by
  intro lo hi best
  induction lo, hi, best using fitLoop.induct r t fp mw mh with
  | case1 lo hi best hle mid hload wh hfits ih =>
    intro s hsmem hsfail
    simp only [mid, wh] at hload hfits ih
    rw [fitLoopTrace] at hsmem ⊢
    simp only [hle, hload, hfits, if_true, and_self, ite_true] at hsmem ⊢
    rcases List.mem_cons.mp hsmem with h | h
    · subst h; rw [hload] at hsfail; cases hsfail
    · have ihx := ih s h hsfail
      have hne : (fitLoopTrace r t fp mw mh ((lo + hi) / 2 + 1) hi
          (some ((lo + hi) / 2))).1 ≠ [] := List.ne_nil_of_mem h
      refine ⟨ihx.1, ?_⟩
      obtain ⟨c, l', hcl⟩ := List.exists_cons_of_ne_nil hne
      rw [hcl] at ihx ⊢
      rw [List.getLast?_cons_cons]
      exact ihx.2
  | case2 lo hi best hle mid hload wh hfits ih =>
    intro s hsmem hsfail
    simp only [mid, wh] at hload hfits ih
    rw [fitLoopTrace] at hsmem ⊢
    simp only [hle, hload, hfits, if_true, if_false, ite_true, ite_false] at hsmem ⊢
    rcases List.mem_cons.mp hsmem with h | h
    · subst h; rw [hload] at hsfail; cases hsfail
    · have ihx := ih s h hsfail
      have hne : (fitLoopTrace r t fp mw mh lo ((lo + hi) / 2 - 1) best).1 ≠ [] :=
        List.ne_nil_of_mem h
      refine ⟨ihx.1, ?_⟩
      obtain ⟨c, l', hcl⟩ := List.exists_cons_of_ne_nil hne
      rw [hcl] at ihx ⊢
      rw [List.getLast?_cons_cons]
      exact ihx.2
  | case3 lo hi best hle mid hload =>
    intro s hsmem _
    simp only [mid] at hload
    rw [fitLoopTrace] at hsmem ⊢
    simp only [hle, hload, ite_true, ite_false, Bool.false_eq_true, if_false] at hsmem ⊢
    rcases List.mem_cons.mp hsmem with h | h
    · subst h; exact ⟨trivial, rfl⟩
    · exact absurd h (List.not_mem_nil s)
  | case4 lo hi best hle =>
    intro s hsmem _
    rw [fitLoopTrace] at hsmem
    simp only [hle, ite_false, if_false] at hsmem
    exact absurd hsmem (List.not_mem_nil s)

/-- Binary-search invariant: if every size loads, the fit predicate is
downward closed, and some size in `[6, 320]` fits, then from any state
satisfying the loop invariants the loop returns the largest fitting size. -/
theorem fitLoop_max (r : Raster) (t fp : String) (mw mh : Nat)
    (hload : ∀ s : Int, r.load fp s = true)
    (hmono : ∀ s u : Int, s ≤ u → fitsAt r t fp mw mh u → fitsAt r t fp mw mh s)
    (hex : ∃ s : Int, 6 ≤ s ∧ s ≤ 320 ∧ fitsAt r t fp mw mh s) :
    ∀ lo hi best,
      6 ≤ lo → hi ≤ 320 →
      (∀ b : Int, best = some b → fitsAt r t fp mw mh b ∧ 6 ≤ b ∧ b ≤ 320) →
      (∀ s : Int, 6 ≤ s → s ≤ 320 → fitsAt r t fp mw mh s → s ≤ hi) →
      (best = none → ∀ s : Int, 6 ≤ s → s ≤ 320 → fitsAt r t fp mw mh s → lo ≤ s) →
      (∀ b : Int, best = some b →
        ∀ s : Int, 6 ≤ s → s ≤ 320 → fitsAt r t fp mw mh s → b < s → lo ≤ s) →
      ∃ b : Int, fitLoop r t fp mw mh lo hi best = some b ∧ fitsAt r t fp mw mh b ∧
        6 ≤ b ∧ b ≤ 320 ∧
        ∀ s : Int, 6 ≤ s → s ≤ 320 → fitsAt r t fp mw mh s → s ≤ b := by
  intro lo hi best
  induction lo, hi, best using fitLoop.induct r t fp mw mh with
  | case1 lo hi best hle mid hloadm wh hfits ih =>
    intro h6 h320 _ hinv2 _ _
    simp only [mid, wh] at hloadm hfits ih
    rw [fitLoop]
    simp [hle, hloadm, hfits]
    have hfitsm : fitsAt r t fp mw mh ((lo + hi) / 2) := hfits
    refine ih (by omega) h320 ?_ hinv2 ?_ ?_
    · intro b hb; cases hb; exact ⟨hfitsm, by omega, by omega⟩
    · intro h; cases h
    · intro b hb s _ _ _ hbs
      cases hb; omega
  | case2 lo hi best hle mid hloadm wh hfits ih =>
    intro h6 h320 hinv1 hinv2 hinv3 hinv4
    simp only [mid, wh] at hloadm hfits ih
    rw [fitLoop]
    simp [hle, hloadm, hfits]
    refine ih h6 (by omega) hinv1 ?_ ?_ ?_
    · intro s hs6 hs320 hfs
      have hlt : s < (lo + hi) / 2 := by
        by_contra hge
        push_neg at hge
        exact hfits (hmono ((lo + hi) / 2) s hge hfs)
      omega
    · intro hb s hs6 hs320 hfs
      exact hinv3 hb s hs6 hs320 hfs
    · intro b hb s hs6 hs320 hfs hbs
      exact hinv4 b hb s hs6 hs320 hfs hbs
  | case3 lo hi best hle mid hloadm =>
    intro _ _ _ _ _ _
    simp only [mid] at hloadm
    exact absurd (hload ((lo + hi) / 2)) hloadm
  | case4 lo hi best hle =>
    intro h6 h320 hinv1 hinv2 hinv3 hinv4
    rw [fitLoop]
    simp only [hle, ite_false, if_false]
    obtain ⟨s₀, hs₀6, hs₀320, hs₀f⟩ := hex
    have hs₀hi : s₀ ≤ hi := hinv2 s₀ hs₀6 hs₀320 hs₀f
    match best with
    | none => exact absurd (hinv3 rfl s₀ hs₀6 hs₀320 hs₀f) (by omega)
    | some b =>
      obtain ⟨hbf, hb6, hb320⟩ := hinv1 b rfl
      refine ⟨b, rfl, hbf, hb6, hb320, ?_⟩
      intro s hs6 hs320 hfs
      by_contra hbs
      push_neg at hbs
      have hlos := hinv4 b rfl s hs6 hs320 hfs hbs
      have := hinv2 s hs6 hs320 hfs
      omega

/-! ### Concrete rasterizer oracles used for evaluations -/

/-- Every size loads and the text always measures 10 × 10. -/
def rasterAll : Raster :=
  { load := fun _ _ => true
    sizeAt := fun _ _ _ => (10, 10)
    fallbackSize := fun _ => (10, 10) }

/-- Every size loads; the text measures 10 × 10 exactly at sizes 6 and
200 and is enormous at every other size (a non-monotone measurement). -/
def rasterGap : Raster :=
  { load := fun _ _ => true
    sizeAt := fun _ _ s => if s = 6 ∨ s = 200 then (10, 10) else (1000, 1000)
    fallbackSize := fun _ => (10, 10) }

/-- No size ever loads (a corrupt font file). -/
def rasterNoLoad : Raster :=
  { load := fun _ _ => false
    sizeAt := fun _ _ _ => (10, 10)
    fallbackSize := fun _ => (10, 10) }

/-- Every size loads but the text is enormous at every size. -/
def rasterHuge : Raster :=
  { load := fun _ _ => true
    sizeAt := fun _ _ _ => (5000, 5000)
    fallbackSize := fun _ => (12, 14) }

/-! ### Helper lemmas about the sequencer -/

/-- `frame_count_per_font` evaluates to 60 with the configured values. -/
theorem frame_count_per_font_eq : frame_count_per_font = 60 := by
  unfold frame_count_per_font SECONDS_PER_FONT FPS
  norm_num [round_eq]

theorem frame_count_per_font_toNat : frame_count_per_font.toNat = 60 := by
  rw [frame_count_per_font_eq]
  rfl

/-- Summing a constant over a list. -/
theorem sum_map_const {α : Type} (l : List α) (c : Nat) :
    (l.map fun _ => c).sum = c * l.length := by
  induction l with
  | nil => simp
  | cons a l ih => simp [ih, Nat.mul_succ]; ring

/-- Total number of frames produced by the rendering loop. -/
theorem render_frames_length_eq (r : Raster) (fonts : List (String × String)) :
    (render_frames r fonts).length = 60 * fonts.length := by
  induction fonts with
  | nil => simp [render_frames]
  | cons f fs ih =>
    unfold render_frames at ih ⊢
    simp only [frame_count_per_font_toNat] at ih ⊢
    simp only [List.flatMap_cons, List.length_append, List.length_replicate, ih,
      List.length_cons]
    ring

/-- Indexing into a `flatMap` of constant-length replicated blocks. -/
theorem flatMap_replicate_getElem {α β : Type} (k : Nat) (g : α → β) :
    ∀ (l : List α) (i j : Nat) (hil : i < l.length), j < k →
      (l.flatMap fun a => List.replicate k (g a))[k * i + j]? =
        some (g (l.get ⟨i, hil⟩)) := by
  intro l
  induction l with
  | nil => intro i j hil _; exact absurd hil (by simp)
  | cons a l ih =>
    intro i j hil hj
    rw [List.flatMap_cons]
    match i with
    | 0 =>
      have hlen : k * 0 + j < (List.replicate k (g a)).length := by
        simp only [List.length_replicate]; omega
      rw [List.getElem?_append_left hlen]
      simp [List.getElem?_replicate, hj]
    | i + 1 =>
      have hlen : (List.replicate k (g a)).length ≤ k * (i + 1) + j := by
        simp only [List.length_replicate, Nat.mul_succ]; omega
      rw [List.getElem?_append_right hlen]
      have hidx : k * (i + 1) + j - (List.replicate k (g a)).length = k * i + j := by
        simp only [List.length_replicate, Nat.mul_succ]; omega
      rw [hidx]
      have hil' : i < l.length := by simpa using hil
      rw [ih i j hil' hj]
      rfl

/-! ### Claim theorems -/

/-- C1 counterexample: with a non-monotone text measurement (the text
fits exactly at sizes 6 and 200 of the range), `fit_text_on_image`
returns size 6 even though the larger size 200 in `[6, 320]` also fits,
so the fitter does not always return a maximum fitting size. -/
theorem fit_text_not_maximal_cex :
    fit_text_on_image rasterGap TEXT "font.ttf" 100 100 = some 6 ∧
    fitsAt rasterGap TEXT "font.ttf" 100 100 200 ∧
    ¬ (200 ≤ (6 : Int)) := by
  refine ⟨?_, ?_, by omega⟩
  · simp [fit_text_on_image, fitLoop, rasterGap]
  · simp [fitsAt, rasterGap]

/-- C1 (amended): if the font loads at every size and the fit predicate
is downward closed (text that fits at a size also fits at every smaller
size), then whenever at least one size in `[6, 320]` fits,
`fit_text_on_image` returns the maximum fitting size of the range. -/
theorem fit_text_monotone_returns_max (r : Raster) (t fp : String) (mw mh : Nat)
    (hload : ∀ s : Int, r.load fp s = true)
    (hmono : ∀ s u : Int, s ≤ u → fitsAt r t fp mw mh u → fitsAt r t fp mw mh s)
    (hex : ∃ s : Int, 6 ≤ s ∧ s ≤ 320 ∧ fitsAt r t fp mw mh s) :
    ∃ b : Int, fit_text_on_image r t fp mw mh = some b ∧ fitsAt r t fp mw mh b ∧
      6 ≤ b ∧ b ≤ 320 ∧
      ∀ s : Int, 6 ≤ s → s ≤ 320 → fitsAt r t fp mw mh s → s ≤ b := by
  unfold fit_text_on_image
  refine fitLoop_max r t fp mw mh hload hmono hex 6 320 none (by omega) (by omega)
    ?_ ?_ ?_ ?_
  · intro b hb; cases hb
  · intro s _ hs320 _; omega
  · intro _ s hs6 _ _; omega
  · intro b hb; cases hb

/-- Witness for C1 (amended): with a rasterizer where the text fits at
every size, the fitter returns the top of the range, size 320. -/
theorem fit_text_monotone_returns_max_witness :
    fit_text_on_image rasterAll TEXT "font.ttf" 100 100 = some 320 := by
  obtain ⟨b, heq, hbfit, hb6, hb320, hmax⟩ :=
    fit_text_monotone_returns_max rasterAll TEXT "font.ttf" 100 100
      (fun _ => rfl)
      (fun s u _ _ => by simp [fitsAt, rasterAll])
      ⟨6, by omega, by omega, by simp [fitsAt, rasterAll]⟩
  have h320b : (320 : Int) ≤ b :=
    hmax 320 (by omega) (by omega) (by simp [fitsAt, rasterAll])
  have hb : b = 320 := le_antisymm hb320 h320b
  rw [hb] at heq
  exact heq

/-- C2: for every non-empty font list, the frame stream length equals the
sum over the fonts of `max(1, round(seconds_per_font * frame_rate))`,
which with the configured `seconds_per_font = 2.0` and `frame_rate = 30`
is 60 frames per font. -/
theorem render_frames_length (r : Raster) (fonts : List (String × String))
    (hne : fonts ≠ []) :
    (render_frames r fonts).length =
      (fonts.map fun _ => (max 1 (round (SECONDS_PER_FONT * (FPS : ℚ)))).toNat).sum ∧
    (render_frames r fonts).length = 60 * fonts.length := by
  have hmain := render_frames_length_eq r fonts
  refine ⟨?_, hmain⟩
  have hc : (max 1 (round (SECONDS_PER_FONT * (FPS : ℚ)))).toNat = 60 :=
    frame_count_per_font_toNat
  rw [hmain]
  simp only [hc]
  rw [sum_map_const]

/-- Witness for C2 at a one-font list: 60 frames. -/
theorem render_frames_length_witness :
    (render_frames rasterAll [("Roboto", "Roboto-Regular.ttf")]).length =
      ([("Roboto", "Roboto-Regular.ttf")].map
        fun _ => (max 1 (round (SECONDS_PER_FONT * (FPS : ℚ)))).toNat).sum ∧
    (render_frames rasterAll [("Roboto", "Roboto-Regular.ttf")]).length =
      60 * [("Roboto", "Roboto-Regular.ttf")].length :=
  render_frames_length rasterAll [("Roboto", "Roboto-Regular.ttf")] (by simp)

/-- C3: the frame stream preserves the input font order in contiguous
blocks: for every font list, frame number `60 * i + j` (with `j < 60`) is
exactly the frame created for the `i`-th font, and the stream has
`60 * fonts.length` frames in total.  In particular for two fonts A and B
the stream has 120 frames, frames 0-59 rendered with A and frames 60-119
rendered with B. -/
theorem render_frames_order (r : Raster) (fonts : List (String × String))
    (i j : Nat) (hil : i < fonts.length) (hj : j < 60) :
    (render_frames r fonts)[60 * i + j]? =
      some (create_frame r WIDTH HEIGHT TEXT (fonts.get ⟨i, hil⟩).2) ∧
    (render_frames r fonts).length = 60 * fonts.length := by
  refine ⟨?_, render_frames_length_eq r fonts⟩
  unfold render_frames
  rw [frame_count_per_font_toNat]
  exact flatMap_replicate_getElem 60
    (fun fp => create_frame r WIDTH HEIGHT TEXT fp.2) fonts i j hil hj

/-- Witness for C3 with fonts `[A, B]`: frame 60 is the first B frame and
the stream has 120 frames. -/
theorem render_frames_order_witness :
    (render_frames rasterAll [("A", "a.ttf"), ("B", "b.ttf")])[60]? =
      some (create_frame rasterAll WIDTH HEIGHT TEXT "b.ttf") ∧
    (render_frames rasterAll [("A", "a.ttf"), ("B", "b.ttf")]).length = 120 := by
  have h := render_frames_order rasterAll [("A", "a.ttf"), ("B", "b.ttf")] 1 0
    (by simp) (by omega)
  simpa using h

/-- C4 counterexample: with an empty resolved font list, `main` raises no
error and the run exits with status 0 — it prints a message and returns
normally — contrary to the claimed `NoUsableFontsError` and non-zero exit
status. -/
theorem main_empty_fonts_cex :
    ¬ ((mainRun rasterAll []).raised = true ∧ (mainRun rasterAll []).exitCode ≠ 0) := by
  simp [mainRun]

/-- C4 (amended): with an empty resolved font list the pipeline aborts
before rendering any frame and writes no output file, but it terminates
normally: no exception propagates and the exit status is 0. -/
theorem main_empty_fonts_aborts (r : Raster) :
    mainRun r [] =
      { frames := [], raised := false, exitCode := 0, outputWritten := false } := rfl

/-- C5: every rendered frame's draw origin is
`((W - w) / 2, (H - h) / 2)` with integer floor division, and both
centering residues have absolute value at most 1, for all canvas and
text dimensions. -/
theorem create_frame_centering (r : Raster) (img_w img_h : Nat) (t fp : String) :
    (create_frame r img_w img_h t fp).origin.1 =
      ((img_w : Int) - (create_frame r img_w img_h t fp).textWH.1) / 2 ∧
    (create_frame r img_w img_h t fp).origin.2 =
      ((img_h : Int) - (create_frame r img_w img_h t fp).textWH.2) / 2 ∧
    |(img_w : Int) - 2 * (create_frame r img_w img_h t fp).origin.1 -
        (create_frame r img_w img_h t fp).textWH.1| ≤ 1 ∧
    |(img_h : Int) - 2 * (create_frame r img_w img_h t fp).origin.2 -
        (create_frame r img_w img_h t fp).textWH.2| ≤ 1 := by
  refine ⟨rfl, rfl, ?_, ?_⟩
  · rw [show (create_frame r img_w img_h t fp).origin.1 =
        ((img_w : Int) - (create_frame r img_w img_h t fp).textWH.1) / 2 from rfl]
    rw [abs_le]
    omega
  · rw [show (create_frame r img_w img_h t fp).origin.2 =
        ((img_h : Int) - (create_frame r img_w img_h t fp).textWH.2) / 2 from rfl]
    rw [abs_le]
    omega

/-- C6: if no size in `[6, 320]` fits the frame's fitting box, the fitter
returns `None` (never an error), `create_frame` falls back to the default
font, the frame still has the requested canvas dimensions, and a run over
such a font list still completes (no exception, output written). -/
theorem fit_nofit_returns_fallback (r : Raster) (img_w img_h : Nat) (t fp : String)
    (hnofit : ∀ s : Int, 6 ≤ s → s ≤ 320 →
      ¬ fitsAt r t fp (fitBoxW img_w) (fitBoxH img_h) s) :
    fit_text_on_image r t fp (fitBoxW img_w) (fitBoxH img_h) = none ∧
    (create_frame r img_w img_h t fp).font = FontChoice.fallback ∧
    (create_frame r img_w img_h t fp).width = img_w ∧
    (create_frame r img_w img_h t fp).height = img_h ∧
    (mainRun r [("family", fp)]).raised = false ∧
    (mainRun r [("family", fp)]).outputWritten = true := by
  have hfit : fit_text_on_image r t fp (fitBoxW img_w) (fitBoxH img_h) = none :=
    fitLoop_none_of_nofit r t fp (fitBoxW img_w) (fitBoxH img_h) hnofit 6 320 none
      (by omega) (by omega) rfl
  refine ⟨hfit, ?_, rfl, rfl, by simp [mainRun], by simp [mainRun]⟩
  simp [create_frame, hfit]

/-- Witness for C6: a text that is enormous at every size ends in the
fallback font on the full 1080 × 1920 canvas, and the run completes. -/
theorem fit_nofit_returns_fallback_witness :
    fit_text_on_image rasterHuge TEXT "font.ttf" (fitBoxW 1080) (fitBoxH 1920) = none ∧
    (create_frame rasterHuge 1080 1920 TEXT "font.ttf").font = FontChoice.fallback ∧
    (mainRun rasterHuge [("family", "font.ttf")]).raised = false := by
  have h := fit_nofit_returns_fallback rasterHuge 1080 1920 TEXT "font.ttf"
    (by intro s _ _; simp [fitsAt, rasterHuge, fitBoxW, fitBoxH])
  exact ⟨h.1, h.2.1, h.2.2.2.2.1⟩

/-- C7: if loading the font fails at a probed size, that size is the last
one probed (the fit is aborted immediately, no further sizes are tried)
and the fitter returns `None`, which `create_frame` recovers locally by
using the fallback font. -/
theorem fit_load_failure_aborts (r : Raster) (t fp : String) (mw mh : Nat)
    (s : Int) (hs : s ∈ fit_probes r t fp mw mh) (hfail : r.load fp s = false) :
    fit_text_on_image r t fp mw mh = none ∧
    (fit_probes r t fp mw mh).getLast? = some s ∧
    ∀ img_w img_h : Nat,
      fit_text_on_image r t fp (fitBoxW img_w) (fitBoxH img_h) = none →
      (create_frame r img_w img_h t fp).font = FontChoice.fallback := by
  have h := fitLoopTrace_load_fail r t fp mw mh 6 320 none s hs hfail
  refine ⟨?_, h.2, ?_⟩
  · unfold fit_text_on_image
    rw [← fitLoopTrace_snd]
    exact h.1
  · intro img_w img_h hnone
    simp [create_frame, hnone]

/-- Witness for C7: a font that never loads fails at the first probed
size 163, which is then the only probe, and the frame uses the fallback. -/
theorem fit_load_failure_aborts_witness :
    fit_text_on_image rasterNoLoad TEXT "font.ttf" (fitBoxW 1080) (fitBoxH 1920) = none ∧
    (fit_probes rasterNoLoad TEXT "font.ttf" (fitBoxW 1080) (fitBoxH 1920)).getLast? =
      some 163 ∧
    (create_frame rasterNoLoad 1080 1920 TEXT "font.ttf").font = FontChoice.fallback := by
  have h := fit_load_failure_aborts rasterNoLoad TEXT "font.ttf"
    (fitBoxW 1080) (fitBoxH 1920) 163
    (by simp [fit_probes, fitLoopTrace, rasterNoLoad]) rfl
  exact ⟨h.1, h.2.1, h.2.2 1080 1920 h.1⟩

/-- C8: the fitter is deterministic and free of hidden state — its result
is a function of the text, the font, the box, and the rasterizer's
behaviour on exactly that text and font; two calls with identical inputs
agree. -/
theorem fit_deterministic (r₁ r₂ : Raster) (t fp : String) (mw mh : Nat)
    (hl : ∀ s : Int, r₁.load fp s = r₂.load fp s)
    (hs : ∀ s : Int, r₁.sizeAt t fp s = r₂.sizeAt t fp s) :
    fit_text_on_image r₁ t fp mw mh = fit_text_on_image r₂ t fp mw mh :=
  fitLoop_congr r₁ r₂ t fp mw mh hl hs 6 320 none

/-- Witness for C8: two identical calls return identical results. -/
theorem fit_deterministic_witness :
    fit_text_on_image rasterAll TEXT "font.ttf" 100 100 =
      fit_text_on_image rasterAll TEXT "font.ttf" 100 100 :=
  fit_deterministic rasterAll rasterAll TEXT "font.ttf" 100 100
    (fun _ => rfl) (fun _ => rfl)

/-- C9: every size at which the fitter attempts rasterization lies in
`[6, 320]`, and any non-fallback size it returns lies in `[6, 320]` (in
particular it never exceeds 320). -/
theorem fit_sizes_in_range (r : Raster) (t fp : String) (mw mh : Nat) :
    (∀ s ∈ fit_probes r t fp mw mh, 6 ≤ s ∧ s ≤ 320) ∧
    (∀ b : Int, fit_text_on_image r t fp mw mh = some b → 6 ≤ b ∧ b ≤ 320) := by
  have h := fitLoopTrace_bounds r t fp mw mh 6 320 none (by omega) (by omega)
    (by intro b hb; cases hb)
  refine ⟨h.1, ?_⟩
  intro b hb
  apply h.2
  rw [fitLoopTrace_snd]
  exact hb

/-- Witness for C9: the first probed size 163 lies within `[6, 320]`. -/
theorem fit_sizes_in_range_witness : 6 ≤ (163 : Int) ∧ (163 : Int) ≤ 320 :=
  (fit_sizes_in_range rasterNoLoad TEXT "font.ttf" (fitBoxW 1080) (fitBoxH 1920)).1
    163 (by simp [fit_probes, fitLoopTrace, rasterNoLoad])

/-- C10: `create_frame` returns a frame of exactly the requested
dimensions with black background and white text, and the fitting box it
passes to the fitter is exactly `int(img_w * 0.9) × int(img_h * 0.5)`;
the chosen font is the fitter's answer, falling back to the default font
when the fitter returns `None` — all of this for every rasterizer, hence
also when the fallback is used and the text exceeds the fitting box. -/
theorem create_frame_shape (r : Raster) (img_w img_h : Nat) (t fp : String) :
    (create_frame r img_w img_h t fp).width = img_w ∧
    (create_frame r img_w img_h t fp).height = img_h ∧
    (create_frame r img_w img_h t fp).background = (0, 0, 0) ∧
    (create_frame r img_w img_h t fp).fill = (255, 255, 255) ∧
    fitBoxW img_w = img_w * 9 / 10 ∧
    fitBoxH img_h = img_h * 5 / 10 ∧
    (create_frame r img_w img_h t fp).font =
      (match fit_text_on_image r t fp (fitBoxW img_w) (fitBoxH img_h) with
        | some s => FontChoice.truetype s
        | none => FontChoice.fallback) :=
  ⟨rfl, rfl, rfl, rfl, rfl, rfl, rfl⟩

end FontReel
